import Mathlib

/-!
Shallow embedding of `src/script/bluray_to_mkv.py` and verification of the
specified behaviour of its two core functions, `identify_movie_titles`
(title-stream parsing plus title selection) and `convert_movie_to_mkv`
(extraction orchestration).

Conventions of the embedding:
  * a process output stream is a `List String`, one entry per `readline`
    result with the trailing newline already removed (a line read before end
    of stream is always truthy in Python, since it retains its newline there);
  * Python `timedelta` values are total seconds (`Nat`), Python floats are
    exact rationals (`ℚ`); in particular the literal `0.6` is the exact 3/5;
  * regex digits `\d` and word characters `\w` are modelled on ASCII
    (MakeMKV output is ASCII);
  * fallible code returns `Except`; filesystem and process nondeterminism
    (binary present, unlink or rename raising `OSError`, process exit code)
    is surfaced as explicit arguments.
-/

namespace BlurayToMkv

/-- Python whitespace, as `str.rstrip()` and `str.split()` treat it. -/
def isPySpace (c : Char) : Bool :=
  c = ' ' || c = '\t' || c = '\n' || c = '\r' || c = '\x0b' || c = '\x0c'

/-- Python `str.rstrip()`: remove trailing whitespace. -/
def rstrip (s : String) : String :=
  ⟨(s.data.reverse.dropWhile isPySpace).reverse⟩

/-- Python `s.split()[0]` on a string that is not all whitespace: skip leading
whitespace, then take the first whitespace-delimited chunk. Yields the empty
string on an all-whitespace input (where Python would raise an IndexError;
unreachable here, since matched size groups start with a digit). -/
def pySplitHead (s : String) : String :=
  ⟨(s.data.dropWhile isPySpace).takeWhile (fun c => !isPySpace c)⟩

/-- Python `in` on strings: `needle` occurs as a contiguous substring. -/
def isSubstrOf (needle : List Char) : List Char → Bool
  | [] => needle.isEmpty
  | c :: cs => needle.isPrefixOf (c :: cs) || isSubstrOf needle cs

/-- Value of a list of ASCII digits, as Python `int` of the digit string. -/
def digitsVal (ds : List Char) : Nat :=
  ds.foldl (fun a c => 10 * a + (c.toNat - 48)) 0

/-- Continuation of a Python numeric digit group after its first digit:
consumes `(digit | _ digit)*` (an underscore is only legal strictly between
digits), returning the digits seen (underscores removed) and the remainder. -/
def digitGroupRest : List Char → List Char × List Char
  | '_' :: c :: rest =>
    if c.isDigit then
      let (ds, r) := digitGroupRest rest
      (c :: ds, r)
    else ([], '_' :: c :: rest)
  | c :: rest =>
    if c.isDigit then
      let (ds, r) := digitGroupRest rest
      (c :: ds, r)
    else ([], c :: rest)
  | [] => ([], [])

/-- A full Python digit group `digit (digit | _ digit)*`: `none` when the
input does not start with a digit. -/
def scanDigitsU (cs : List Char) : Option (List Char × List Char) :=
  match cs with
  | c :: rest =>
    if c.isDigit then
      let (ds, r) := digitGroupRest rest
      some (c :: ds, r)
    else none
  | [] => none

/-- Python `float()` on the decimal literals reachable from the size pattern:
strings starting with a digit, with an optional fraction part, underscore
digit separators, and an optional integer exponent. Sign prefixes, `inf`,
`nan` and literals starting with a dot are unreachable here and rejected.
The exact decimal value is built as one `mkRat`: digits of `i.f` concatenated
over ten to the fraction length. Returns `none` where Python raises
`ValueError`. -/
def pyFloat? (s : String) : Option ℚ :=
  match scanDigitsU s.data with
  | none => none
  | some (ip, rest) =>
    match rest with
    | [] => some (mkRat (digitsVal ip) 1)
    | '.' :: rest2 =>
      match rest2 with
      | [] => some (mkRat (digitsVal ip) 1)
      | _ =>
        match scanDigitsU rest2 with
        | none => none
        | some (fp, rest3) =>
          match rest3 with
          | [] => some (mkRat (digitsVal (ip ++ fp)) (10 ^ fp.length))
          | 'e' :: r4 =>
            match scanDigitsU r4 with
            | some (ep, []) =>
              some (mkRat (digitsVal (ip ++ fp) * 10 ^ digitsVal ep)
                (10 ^ fp.length))
            | _ => none
          | 'E' :: r4 =>
            match scanDigitsU r4 with
            | some (ep, []) =>
              some (mkRat (digitsVal (ip ++ fp) * 10 ^ digitsVal ep)
                (10 ^ fp.length))
            | _ => none
          | _ => none
    | 'e' :: r2 =>
      match scanDigitsU r2 with
      | some (ep, []) =>
        some (mkRat (digitsVal ip * 10 ^ digitsVal ep) 1)
      | _ => none
    | 'E' :: r2 =>
      match scanDigitsU r2 with
      | some (ep, []) =>
        some (mkRat (digitsVal ip * 10 ^ digitsVal ep) 1)
      | _ => none
    | _ => none

/-- Maximal leading run of ASCII digits, for the greedy regex `\d+`. -/
def takeDigits (cs : List Char) : List Char × List Char :=
  (cs.takeWhile Char.isDigit, cs.dropWhile Char.isDigit)

/-- Consume an exact literal; `none` if the input does not start with it. -/
def dropLit : List Char → List Char → Option (List Char)
  | [], cs => some cs
  | _ :: _, [] => none
  | p :: ps, c :: cs => if c = p then dropLit ps cs else none

/-- Anchored match of the common skeleton `TINFO:(?P<title>\d+),{id},\d+,"`
of the four MakeMKV info patterns (`re.match` anchors at the line start
only): returns the title index and the remainder after the opening quote.
Each greedy `\d+` group is followed by a non-digit literal, so maximal-run
matching is exact and no backtracking arises in the skeleton. -/
def tinfoHead (idLit : List Char) (cs : List Char) : Option (Nat × List Char) :=
  match dropLit "TINFO:".data cs with
  | none => none
  | some cs1 =>
    match takeDigits cs1 with
    | (t, cs2) =>
      if t.isEmpty then none else
      match dropLit (',' :: idLit ++ [',']) cs2 with
      | none => none
      | some cs3 =>
        match takeDigits cs3 with
        | (u, cs4) =>
          if u.isEmpty then none else
          match dropLit [',', '\"'] cs4 with
          | none => none
          | some cs5 => some (digitsVal t, cs5)

/-- Anchored match of MAKEMKV_PATTERN_TITLE_CHAPTERS,
`TINFO:(?P<title>\d+),8,\d+,"(?P<chapters>\d+)"`: returns (title, chapters).
Trailing characters are ignored, `re.match` being start-anchored only. -/
def chaptersMatch (s : String) : Option (Nat × Nat) :=
  match tinfoHead ['8'] s.data with
  | none => none
  | some (t, cs) =>
    match takeDigits cs with
    | (d, cs2) =>
      if d.isEmpty then none else
      match dropLit ['\"'] cs2 with
      | none => none
      | some _ => some (t, digitsVal d)

/-- Anchored match of MAKEMKV_PATTERN_TITLE_DURATION,
`TINFO:(?P<title>\d+),9,\d+,"(?P<hours>\d):(?P<minutes>\d{2}):(?P<seconds>\d{2})"`:
the hour group is a single digit, minutes and seconds exactly two digits.
Returns (title, hours, minutes, seconds). -/
def durationMatch (s : String) : Option (Nat × Nat × Nat × Nat) :=
  match tinfoHead ['9'] s.data with
  | none => none
  | some (t, cs) =>
    match cs with
    | h :: ':' :: m1 :: m2 :: ':' :: s1 :: s2 :: '\"' :: _ =>
      if h.isDigit && m1.isDigit && m2.isDigit && s1.isDigit && s2.isDigit then
        some (t, digitsVal [h], digitsVal [m1, m2], digitsVal [s1, s2])
      else none
    | _ => none

/-- Regex `\w` on ASCII. -/
def isWordChar (c : Char) : Bool := c.isAlphanum || c = '_'

/-- Tail of the size group `\d{1,}.\d+ \w?B` at a fixed split point after the
leading digits: one arbitrary character (the unescaped dot, matching anything
but a newline), a greedy digit run (deterministic, being followed by a
non-digit literal), a space, an optional word character tried greedily first,
a literal B, and the closing quote that follows the group in the pattern.
Returns the group characters from the arbitrary character on. -/
def sizeTailHere (cs : List Char) : Option (List Char) :=
  match cs with
  | [] => none
  | c :: rest =>
    if c = '\n' then none else
    match takeDigits rest with
    | (d, rest2) =>
      if d.isEmpty then none else
      match rest2 with
      | ' ' :: rest3 =>
        match rest3 with
        | w :: 'B' :: '\"' :: _ =>
          if isWordChar w then some (c :: (d ++ [' ', w, 'B']))
          else
            match rest3 with
            | 'B' :: '\"' :: _ => some (c :: (d ++ [' ', 'B']))
            | _ => none
        | _ =>
          match rest3 with
          | 'B' :: '\"' :: _ => some (c :: (d ++ [' ', 'B']))
          | _ => none
      | _ => none

/-- Backtracking for the greedy `\d{1,}` opening the size group: longer digit
runs are tried first, the engine giving back one digit at a time on failure.
`d1rev` holds the digits committed so far, most recent first; it is nonempty
at every call. -/
def sizeGroupFrom (d1rev : List Char) (cs : List Char) : Option (List Char) :=
  match cs with
  | [] => none
  | c :: rest =>
    if c.isDigit then
      match sizeGroupFrom (c :: d1rev) rest with
      | some g => some g
      | none =>
        match sizeTailHere (c :: rest) with
        | some tail => some (d1rev.reverse ++ tail)
        | none => none
    else
      match sizeTailHere (c :: rest) with
      | some tail => some (d1rev.reverse ++ tail)
      | none => none

/-- Anchored match of MAKEMKV_PATTERN_TITLE_SIZE,
`TINFO:(?P<title>\d+),10,\d+,"(?P<size>\d{1,}.\d+ \w?B)"`: returns the title
index and the text of the size group. -/
def sizeMatch (s : String) : Option (Nat × String) :=
  match tinfoHead ['1', '0'] s.data with
  | none => none
  | some (t, cs) =>
    match cs with
    | [] => none
    | c :: rest =>
      if c.isDigit then
        match sizeGroupFrom [c] rest with
        | some g => some (t, ⟨g⟩)
        | none => none
      else none

/-- Greedy search for the mkv group `.*\.mkv` followed by the closing quote:
`.*` is greedy, so the latest split before a `.mkv"` occurrence wins; the
consumed characters may not include a newline. Returns the group text. -/
def mkvGroupFrom (cs : List Char) : Option (List Char) :=
  let here : Option (List Char) :=
    match dropLit ['.', 'm', 'k', 'v', '\"'] cs with
    | some _ => some ['.', 'm', 'k', 'v']
    | none => none
  match cs with
  | [] => none
  | c :: rest =>
    if c = '\n' then here
    else
      match mkvGroupFrom rest with
      | some g => some (c :: g)
      | none => here

/-- Anchored match of MAKEMKV_PATTERN_TITLE_MKV,
`TINFO:(?P<title>\d+),27,\d+,"(?P<mkv>.*\.mkv)"`: returns (title, mkv name). -/
def mkvMatch (s : String) : Option (Nat × String) :=
  match tinfoHead ['2', '7'] s.data with
  | none => none
  | some (t, cs) =>
    match mkvGroupFrom cs with
    | some g => some (t, ⟨g⟩)
    | none => none

/-- A completed movie title record, as the dictionaries appended to `titles`
in `identify_movie_titles`: `number` comes from the title group of the mkv
match, the other four fields from the four info matches. -/
structure Title where
  number : Nat
  chapters : Nat
  duration : Nat
  size : ℚ
  mkv : String
deriving DecidableEq, Repr

/-- Uncaught Python exceptions that can escape `identify_movie_titles`:
`FileNotFoundError` from `subprocess.Popen` when `find_makemkv_binary`
returned `None` (the command list then starts with the string `"None"`, not
the name of an existing executable), and `ValueError` from `float()` in the
size converter. -/
inductive PyError where
  | fileNotFound
  | valueError
deriving DecidableEq, Repr

/-- State after one inner `while line:` scan for a single pattern: the match,
if one was found before the stream ended; the current value of `line`
(`none` models the falsy empty string `readline` returns at end of stream);
and the lines not yet read. -/
structure ScanOut (M : Type) where
  found : Option M
  cur : Option String
  rest : List String

/-- The inner `while line:` loop of `identify_movie_titles` for one regex:
rstrip the current line, try the pattern, read further lines until a match or
end of stream. On a match the loop breaks with `line` still holding the
stripped matched line, which the next pattern therefore examines first. -/
def scanFor {M : Type} (pat : String → Option M) :
    Option String → List String → ScanOut M
  | none, rest => ⟨none, none, rest⟩
  | some l, rest =>
    let s := rstrip l
    match pat s with
    | some m => ⟨some m, some s, rest⟩
    | none =>
      match rest with
      | [] => ⟨none, none, []⟩
      | x :: xs => scanFor pat (some x) xs

/-- The size converter,
`float(m.group('size').split()[0]) if 'GB' in m.group('size') else None`:
a non-gigabyte unit is recorded as `None` (`.ok none`); a `float()` failure
is the uncaught `ValueError`. -/
def sizeConvert (g : String) : Except PyError (Option ℚ) :=
  if isSubstrOf "GB".data g.data then
    match pyFloat? (pySplitHead g) with
    | some q => .ok (some q)
    | none => .error .valueError
  else .ok none

/-- The four scans of one pass of the `for regex in regexs:` loop, in
ascending MakeMKV id order (chapters 8, duration 9, size 10, mkv 27); each
scan starts from the line on which the previous one matched and from the
lines it left unread. A scan is only consulted when the previous one found a
match; being pure, defining it unconditionally is equivalent. -/
def chaptersScan (cur : String) (rest : List String) : ScanOut (Nat × Nat) :=
  scanFor chaptersMatch (some cur) rest

/-- Duration scan, resuming where the chapters scan stopped. -/
def durationScan (cur : String) (rest : List String) :
    ScanOut (Nat × Nat × Nat × Nat) :=
  scanFor durationMatch (chaptersScan cur rest).cur (chaptersScan cur rest).rest

/-- Size scan, resuming where the duration scan stopped. -/
def sizeScan (cur : String) (rest : List String) : ScanOut (Nat × String) :=
  scanFor sizeMatch (durationScan cur rest).cur (durationScan cur rest).rest

/-- Mkv scan, resuming where the size scan stopped. -/
def mkvScan (cur : String) (rest : List String) : ScanOut (Nat × String) :=
  scanFor mkvMatch (sizeScan cur rest).cur (sizeScan cur rest).rest

/-- One pass of the `for regex in regexs:` loop of `identify_movie_titles`:
run the four scans in order. When the mkv pattern, the last one, matches, the
collected record is appended unless one of its values is `None` — only the
size converter can produce `None` — and the outer loop then reads the next
line. The second component of the result is that read: `none` when the
stream is exhausted, otherwise the new current line and the remainder. The
size conversion runs at its match, so its `ValueError` escapes even if the
mkv scan would later fail. -/
def parseRound (cur : String) (rest : List String) :
    Except PyError (Option Title × Option (String × List String)) :=
  match (chaptersScan cur rest).found with
  | none => .ok (none, none)
  | some (_, chap) =>
    match (durationScan cur rest).found with
    | none => .ok (none, none)
    | some (_, h, mi, se) =>
      match (sizeScan cur rest).found with
      | none => .ok (none, none)
      | some (_, g) =>
        match sizeConvert g with
        | .error e => .error e
        | .ok sz? =>
          match (mkvScan cur rest).found with
          | none => .ok (none, none)
          | some (tno, mkvName) =>
            .ok (sz?.map fun sz =>
              { number := tno, chapters := chap,
                duration := h * 3600 + mi * 60 + se, size := sz,
                mkv := mkvName : Title },
              match (mkvScan cur rest).rest with
              | [] => none
              | x :: xs => some (x, xs))

/-- The outer `while line:` loop of `identify_movie_titles`, driven by fuel.
Every continuing round hands the recursion a strict suffix of its unread
lines, so `rest.length + 1` rounds always suffice (`parseTitlesFuel_stable`
below proves the fuel irrelevant beyond that bound). -/
def parseTitlesFuel : Nat → String → List String → Except PyError (List Title)
  | 0, _, _ => .ok []
  | fuel + 1, cur, rest =>
    match parseRound cur rest with
    | .error e => .error e
    | .ok (t?, none) => .ok t?.toList
    | .ok (t?, some (c2, r2)) =>
      match parseTitlesFuel fuel c2 r2 with
      | .error e => .error e
      | .ok ts => .ok (t?.toList ++ ts)

/-- The title-parsing phase of `identify_movie_titles` (source lines 174 to
193): reads the output stream line by line and returns the completed title
records in the order their mkv field was observed, or the uncaught
exception. -/
def parseTitles (lines : List String) : Except PyError (List Title) :=
  match lines with
  | [] => .ok []
  | c :: r => parseTitlesFuel (r.length + 1) c r

/-- Python tuple comparison of the sort keys `(duration, size)`. -/
def titleKeyLe (a b : Title) : Bool :=
  decide (a.duration < b.duration)
    || (a.duration == b.duration && decide (a.size ≤ b.size))

/-- Stable insertion modelling `sorted(..., reverse=True)`: descending on the
key, an element passing an equal-key element never. Stable sorts of the same
list under the same key agree, so folding this from the right is exactly the
list `sorted` produces. -/
def insertTitle (x : Title) : List Title → List Title
  | [] => [x]
  | y :: ys => if titleKeyLe y x then x :: y :: ys else y :: insertTitle x ys

/-- Source line 196: `sorted(titles, key=lambda t: (duration, size),
reverse=True)`. -/
def sortTitles (ts : List Title) : List Title := ts.foldr insertTitle []

/-- Python slice `xs[:n]`. Negative `n` counts from the end; the selection
phase only slices with a positive count, but the semantics are kept exact. -/
def pySliceTo (xs : List Title) (n : Int) : List Title :=
  if 0 ≤ n then xs.take n.toNat else xs.take (xs.length - (-n).toNat)

/-- The selection loop of `identify_movie_titles` (source lines 198 to 208):
`lastSel` is `movie_titles[-1]`, `prev` is `titles[i-1]` in the sorted list.
A duration-and-size tie between adjacent sorted records with a truthy count
empties the selection and breaks (`none`); otherwise a record whose size
exceeds 0.6 of the last selected size is appended. The float literal `0.6`
is modelled as the exact rational `mkRat 3 5`. -/
def walkSel (count : Int) : Title → Title → List Title → Option (List Title)
  | _, _, [] => some []
  | lastSel, prev, t :: rest =>
    if count ≠ 0 ∧ t.duration = prev.duration ∧ t.size = prev.size then none
    else if mkRat 3 5 * lastSel.size < t.size then
      (walkSel count t t rest).map (t :: ·)
    else
      walkSel count lastSel t rest

/-- The selection phase of `identify_movie_titles` (source lines 195 to 215):
sort descending by (duration, size), seed the selection with the head, walk
the remaining sorted records, and — only when no tie broke the walk — slice
to `count` when `count` is truthy. -/
def selectMovieTitles (titles : List Title) (count : Int) : List Title :=
  match sortTitles titles with
  | [] => []
  | t0 :: rest =>
    match walkSel count t0 t0 rest with
    | none => []
    | some sel =>
      if count ≠ 0 then pySliceTo (t0 :: sel) count else t0 :: sel

instance {ε α : Type} [DecidableEq ε] [DecidableEq α] :
    DecidableEq (Except ε α) := fun x y =>
  match x, y with
  | .ok a, .ok b => if h : a = b then .isTrue (by rw [h]) else .isFalse (by simp [h])
  | .error a, .error b => if h : a = b then .isTrue (by rw [h]) else .isFalse (by simp [h])
  | .ok _, .error _ => .isFalse (by simp)
  | .error _, .ok _ => .isFalse (by simp)

/-- Observable outcome of `identify_movie_titles`: whether `subprocess.Popen`
was reached with a startable command (a process spawned), and the returned
list or the escaped exception. -/
structure IdentifyResult where
  spawned : Bool
  result : Except PyError (List Title)
deriving DecidableEq, Repr

/-- identify_movie_titles (source lines 127 to 215). `binary` is the value
`find_makemkv_binary()` returns (`none` when `which` fails); `stream` is the
line sequence the spawned process writes. A negative count returns before
the binary is even looked up; an absent binary makes the command list
`["None", "-r", "info", ...]`, so `Popen` raises `FileNotFoundError`, which
nothing in the script catches. -/
def identify_movie_titles (binary : Option String) (stream : List String)
    (count : Int) : IdentifyResult :=
  if count < 0 then ⟨false, .ok []⟩
  else
    match binary with
    | none => ⟨false, .error .fileNotFound⟩
    | some _ =>
      ⟨true, (parseTitles stream).map (fun ts => selectMovieTitles ts count)⟩

/-- MAKEMKV_OUTPUT_CONVERSION_SUCCESS, the literal the script both searches
for (as an uncompiled regular expression) and compares statuses against. -/
def markerLit : String := "Copy complete. 1 titles saved."

/-- The marker literal as the regular expression `re.search` actually
interprets it: each `.` is a metacharacter matching any single character
except a newline; every other character is a literal. -/
def markerPat : List (Option Char) :=
  markerLit.data.map (fun c => if c = '.' then none else some c)

/-- One pattern position against one character. -/
def wildEq : Option Char → Char → Bool
  | none, c => c != '\n'
  | some p, c => p == c

/-- Whether the pattern matches a prefix of `cs`. -/
def patMatchesAt : List (Option Char) → List Char → Bool
  | [], _ => true
  | _ :: _, [] => false
  | p :: ps, c :: cs => wildEq p c && patMatchesAt ps cs

/-- re.search of the marker pattern: leftmost match wins; the matched text is
the pattern-length slice at the match position (the pattern has fixed
length). -/
def searchMarkerFrom (cs : List Char) : Option String :=
  if patMatchesAt markerPat cs then some ⟨cs.take markerPat.length⟩
  else
    match cs with
    | [] => none
    | _ :: rest => searchMarkerFrom rest

/-- `re.search(MAKEMKV_OUTPUT_CONVERSION_SUCCESS, line)`, returning
`match.group()`. -/
def searchMarker (s : String) : Option String := searchMarkerFrom s.data

/-- The status-scanning loop of `convert_movie_to_mkv` (source lines 237 to
252): every line is rstripped and remembered as `last_line`; a line on which
`re.search` finds the marker pattern overwrites `conversion_status` with the
matched text; when the stream ends without any match having occurred the
status falls back to the last stripped line, the empty string for an empty
stream. -/
def statusGo : List String → String → Option String → String
  | [], last, st => st.getD last
  | l :: ls, _, st =>
    let s := rstrip l
    statusGo ls s (match searchMarker s with
                   | some t => some t
                   | none => st)

/-- conversion_status as `convert_movie_to_mkv` computes it from the stream. -/
def conversionStatus (lines : List String) : String := statusGo lines "" none

/-- Observable outcome of `convert_movie_to_mkv`: the conversion status
string, the returned file path (`None` on failure), the path unlink was
attempted on, and the attempted rename as (source, target). Paths are
modelled as strings joined with `/`, as `pathlib` renders them. -/
structure ConvertResult where
  status : String
  mkvPath : Option String
  unlinkAttempted : Option String
  renameAttempted : Option (String × String)
deriving DecidableEq, Repr

set_option linter.unusedVariables false in
/-- convert_movie_to_mkv (source lines 218 to 273). The process exit code is
surfaced as an argument to record that the code never consults
`p.returncode`; `unlinkFails` and `renameFails` say whether the respective
filesystem call raises `OSError`. An unlink failure is swallowed
(`except OSError: pass`), so `unlinkFails` influences nothing observable; a
rename failure keeps the tool-named path and only logs a warning. -/
def convert_movie_to_mkv (movie : String) (discNumber : Nat)
    (titleNumber : Nat) (titleMkv : String) (destination : String)
    (stream : List String) (exitCode : Int)
    (unlinkFails renameFails : Bool) : ConvertResult :=
  let status := conversionStatus stream
  let mkv := destination ++ "/" ++ titleMkv
  if status ≠ markerLit then
    { status := status, mkvPath := none, unlinkAttempted := some mkv,
      renameAttempted := none }
  else
    let target := destination ++ "/" ++ movie ++ " - d" ++ toString discNumber
      ++ "t" ++ toString titleNumber ++ ".mkv"
    { status := status,
      mkvPath := some (if renameFails then mkv else target),
      unlinkAttempted := none,
      renameAttempted := some (mkv, target) }

/-- Spec wording for C4: the last non-empty line observed (lines are observed
after stripping). -/
def lastNonEmptyLine (lines : List String) : Option String :=
  ((lines.map rstrip).filter (fun l => l ≠ "")).getLast?

/-- Matched text of the last stream line on which the marker pattern finds a
match. -/
def lastMarkerHit (lines : List String) : Option String :=
  (lines.filterMap (fun l => searchMarker (rstrip l))).getLast?

/-- The last line of the stream after stripping; the empty string for an
empty stream. -/
def lastStripped (lines : List String) : String :=
  ((lines.map rstrip).getLast?).getD ""

/-- Two adjacent records tie on both duration and size. -/
def hasAdjacentTie : List Title → Bool
  | [] => false
  | [_] => false
  | a :: b :: r =>
    (a.duration == b.duration && decide (a.size = b.size)) || hasAdjacentTie (b :: r)

/-- The selection walk as claim C8 words it: walk the sorted tail, including
a record whenever its size exceeds 0.6 of the previous selected size. -/
def claimWalk : Title → List Title → List Title
  | _, [] => []
  | lastSel, t :: rest =>
    if mkRat 3 5 * lastSel.size < t.size then t :: claimWalk t rest
    else claimWalk lastSel rest

/-- The selection as claim C8 words it: sort descending by (duration, size),
seed with the single longest title, walk the remaining records, then truncate
to the requested count, 0 meaning no limit. -/
def selectionPerClaim (titles : List Title) (count : Int) : List Title :=
  match sortTitles titles with
  | [] => []
  | t0 :: rest =>
    let sel := t0 :: claimWalk t0 rest
    if count ≠ 0 then pySliceTo sel count else sel

/-- Provenance of a returned record: each informational field was produced by
a match of its own pattern on some stripped line of the stream — though not
necessarily all on lines carrying one and the same title index — and the size
match carried a gigabyte unit whose numeric part converted to the recorded
size. The record index and mkv name come from one mkv-pattern match. -/
def TitleProvenance (S : List String) (t : Title) : Prop :=
  (∃ l ∈ S, ∃ i, chaptersMatch (rstrip l) = some (i, t.chapters)) ∧
  (∃ l ∈ S, ∃ i h mi se, durationMatch (rstrip l) = some (i, h, mi, se) ∧
    t.duration = h * 3600 + mi * 60 + se) ∧
  (∃ l ∈ S, ∃ i g, sizeMatch (rstrip l) = some (i, g) ∧
    isSubstrOf "GB".data g.data = true ∧
    pyFloat? (pySplitHead g) = some t.size) ∧
  (∃ l ∈ S, mkvMatch (rstrip l) = some (t.number, t.mkv))

/-! Lemmas about the selection phase. -/

theorem walkSel_tie_none {count : Int} (hc : count ≠ 0) :
    ∀ (l : List Title) (lastSel prev : Title),
      hasAdjacentTie (prev :: l) = true → walkSel count lastSel prev l = none := by
  intro l
  induction l with
  | nil => intro lastSel prev h; simp [hasAdjacentTie] at h
  | cons t rest ih =>
    intro lastSel prev h
    rw [walkSel]
    by_cases htie : count ≠ 0 ∧ t.duration = prev.duration ∧ t.size = prev.size
    · rw [if_pos htie]
    · rw [if_neg htie]
      have hrec : hasAdjacentTie (t :: rest) = true := by
        simp only [hasAdjacentTie, Bool.or_eq_true] at h
        rcases h with h | h
        · exfalso
          apply htie
          simp only [Bool.and_eq_true, beq_iff_eq, decide_eq_true_eq] at h
          exact ⟨hc, h.1.symm, h.2.symm⟩
        · exact h
      by_cases hsz : mkRat 3 5 * lastSel.size < t.size
      · rw [if_pos hsz, ih t t hrec]
        rfl
      · rw [if_neg hsz]
        exact ih lastSel t hrec

theorem sortTitles_of_sorted :
    ∀ {ts : List Title}, ts.Pairwise (fun a b => titleKeyLe b a = true) →
      sortTitles ts = ts := by
  intro ts
  induction ts with
  | nil => intro _; rfl
  | cons x xs ih =>
    intro h
    rcases List.pairwise_cons.mp h with ⟨hx, hxs⟩
    show insertTitle x (sortTitles xs) = x :: xs
    rw [ih hxs]
    cases xs with
    | nil => rfl
    | cons y ys => simp [insertTitle, hx y (List.mem_cons_self y ys)]

/-- C1: for every list of records sorted descending by (duration, size) and
every non-zero requested count, an adjacent duration-and-size tie anywhere in
the list makes the selection phase of identify_movie_titles return the empty
selection: the ambiguity guard aborts rather than guessing. -/
theorem ambiguity_guard_empties_selection (ts : List Title) (count : Int)
    (hc : count ≠ 0) (hsorted : ts.Pairwise (fun a b => titleKeyLe b a = true))
    (htie : hasAdjacentTie ts = true) :
    selectMovieTitles ts count = [] := by
  unfold selectMovieTitles
  rw [sortTitles_of_sorted hsorted]
  cases ts with
  | nil => rfl
  | cons t0 rest => simp [walkSel_tie_none hc rest t0 t0 htie]

/-- Witness for C1 at a concrete two-record tie. -/
theorem ambiguity_guard_empties_selection_witness :
    selectMovieTitles
      [⟨0, 5, 3600, 2, "t0.mkv"⟩, ⟨1, 5, 3600, 2, "t1.mkv"⟩] 1 = [] :=
  ambiguity_guard_empties_selection _ 1 (by decide) (by decide) (by decide)

/-- C3 (amended): a strictly negative requested count short-circuits before
the binary lookup: no process is spawned and the empty selection is returned,
whatever the binary and the stream. -/
theorem negative_count_short_circuits (binary : Option String)
    (stream : List String) (count : Int) (hc : count < 0) :
    identify_movie_titles binary stream count = ⟨false, .ok []⟩ := by
  unfold identify_movie_titles
  rw [if_pos hc]

/-- Witness for the amended C3 at count -1. -/
theorem negative_count_short_circuits_witness :
    identify_movie_titles none ["TINFO:0,8,0,\"5\""] (-1) = ⟨false, .ok []⟩ :=
  negative_count_short_circuits none _ (-1) (by decide)

/-- Counterexample to C3 as stated: with a requested count of zero the
external tool is spawned and the selection returned is non-empty — count
zero means no limit, it is not a short-circuit. -/
theorem zero_count_spawns_and_selects :
    identify_movie_titles (some "makemkvcon")
      ["TINFO:0,8,0,\"5\"", "TINFO:0,9,0,\"1:00:00\"",
       "TINFO:0,10,0,\"2.0 GB\"", "TINFO:0,27,0,\"t0.mkv\""] 0 =
      ⟨true, .ok [⟨0, 5, 3600, 2, "t0.mkv"⟩]⟩ := by decide

/-- C6: when `find_makemkv_binary` returns `None`, `identify_movie_titles`
builds the command list `[str(None), ...] = ["None", ...]` and `Popen`
raises `FileNotFoundError`, which no caller catches — the exception escapes
instead of the documented empty return. -/
theorem missing_binary_raises :
    identify_movie_titles none ["TINFO:0,8,0,\"5\""] 10 =
      ⟨false, .error .fileNotFound⟩ := by decide

/-! Lemmas about the status scan of `convert_movie_to_mkv`. -/

theorem getLastD_cons {α : Type} (a d : α) (m : List α) :
    ((a :: m).getLast?).getD d = (m.getLast?).getD a := by
  cases m with
  | nil => rfl
  | cons b m =>
    rw [List.getLast?_cons_cons]
    have : (b :: m).getLast?.isSome := by
      rw [List.getLast?_isSome]
      exact List.cons_ne_nil b m
    rcases Option.isSome_iff_exists.mp this with ⟨x, hx⟩
    rw [hx]
    rfl

theorem statusGo_spec (ls : List String) :
    ∀ (last : String) (st : Option String),
      statusGo ls last st =
        ((ls.filterMap (fun l => searchMarker (rstrip l))).getLast?).getD
          (st.getD (((ls.map rstrip).getLast?).getD last)) := by
  induction ls with
  | nil => intro last st; rfl
  | cons l ls ih =>
    intro last st
    cases hm : searchMarker (rstrip l) with
    | none =>
      rw [statusGo]
      simp only [hm, List.filterMap_cons, List.map_cons]
      rw [ih (rstrip l) st]
      simp [getLastD_cons]
    | some t =>
      rw [statusGo]
      simp only [hm, List.filterMap_cons, List.map_cons]
      rw [ih (rstrip l) (some t)]
      simp [getLastD_cons]

theorem conversionStatus_spec (lines : List String) :
    conversionStatus lines = (lastMarkerHit lines).getD (lastStripped lines) := by
  rw [conversionStatus, statusGo_spec, lastMarkerHit, lastStripped]
  rfl

theorem searchMarker_self : searchMarker markerLit = some markerLit := by decide

theorem lastMarkerHit_of_no_match {lines : List String}
    (h : ∀ l ∈ lines, searchMarker (rstrip l) = none) :
    lastMarkerHit lines = none := by
  rw [lastMarkerHit, List.filterMap_eq_nil_iff.mpr h]
  rfl

theorem status_ne_marker_of_no_match {lines : List String}
    (h : ∀ l ∈ lines, searchMarker (rstrip l) = none) :
    conversionStatus lines ≠ markerLit := by
  rw [conversionStatus_spec, lastMarkerHit_of_no_match h]
  intro habs
  simp only [Option.getD_none] at habs
  rw [lastStripped] at habs
  cases hg : (lines.map rstrip).getLast? with
  | none => rw [hg] at habs; exact absurd habs (by decide)
  | some x =>
    rw [hg] at habs
    simp only [Option.getD_some] at habs
    have hx : x ∈ lines.map rstrip := by
      rcases List.mem_getLast?_eq_getLast (l := lines.map rstrip) (x := x)
        (by rw [hg]; rfl) with ⟨hne, hxe⟩
      rw [hxe]
      exact List.getLast_mem hne
    rcases List.mem_map.mp hx with ⟨l0, hl0, hrs⟩
    have := h l0 hl0
    rw [hrs, habs, searchMarker_self] at this
    exact Option.noConfusion this

/-- The status field of the result is always the scanned conversion status. -/
theorem convert_status_eq (movie : String) (dn tn : Nat) (tmkv dest : String)
    (stream : List String) (ec : Int) (uf rf : Bool) :
    (convert_movie_to_mkv movie dn tn tmkv dest stream ec uf rf).status =
      conversionStatus stream := by
  unfold convert_movie_to_mkv
  by_cases h : conversionStatus stream ≠ markerLit
  · rw [if_pos h]
  · rw [if_neg h]

/-- Success (a returned path) is equivalent to the last marker-pattern match
in the stream having matched the literal text exactly. -/
theorem convert_success_iff (movie : String) (dn tn : Nat) (tmkv dest : String)
    (stream : List String) (ec : Int) (uf rf : Bool) :
    (convert_movie_to_mkv movie dn tn tmkv dest stream ec uf rf).mkvPath.isSome
      ↔ lastMarkerHit stream = some markerLit := by
  unfold convert_movie_to_mkv
  by_cases h : conversionStatus stream ≠ markerLit
  · rw [if_pos h]
    simp only [Option.isSome_none, Bool.false_eq_true, false_iff]
    intro habs
    apply h
    rw [conversionStatus_spec, habs]
    rfl
  · rw [if_neg h]
    push_neg at h
    simp only [Option.isSome_some, true_iff]
    rw [conversionStatus_spec] at h
    cases hm : lastMarkerHit stream with
    | some t => rw [hm] at h; simpa using h
    | none =>
      exfalso
      have hfm : stream.filterMap (fun l => searchMarker (rstrip l)) = [] := by
        by_contra hnil
        rcases Option.isSome_iff_exists.mp (List.getLast?_isSome.mpr hnil)
          with ⟨z, hz⟩
        rw [lastMarkerHit, hz] at hm
        exact Option.noConfusion hm
      have hnone : ∀ l ∈ stream, searchMarker (rstrip l) = none :=
        List.filterMap_eq_nil_iff.mp hfm
      exact status_ne_marker_of_no_match hnone
        (by rw [conversionStatus_spec]; exact h)

/-- Counterexample to C2 as stated: the stream contains the literal marker as
a whole line, yet the extraction is reported failed, because a later line also
matches the marker pattern (its dots match any character) with different text
and overwrites the recorded status. -/
theorem marker_then_spoiler_fails :
    (convert_movie_to_mkv "Movie" 0 4 "MOVIE_t04.mkv" "/dest"
        [markerLit, "Copy completeX 1 titles savedY"] 0 false false).mkvPath = none
    ∧ markerLit ∈ [markerLit, "Copy completeX 1 titles savedY"] := by decide

/-- C2 (amended): the result never depends on the process exit code nor on an
unlink failure, and success is reported exactly when the last line matching
the marker-as-regex pattern matched with text equal to the marker literal —
a literal marker occurrence does not guarantee success if a later line also
matches the pattern. -/
theorem success_iff_last_match_is_literal (movie : String) (dn tn : Nat)
    (tmkv dest : String) (stream : List String) (ec ec2 : Int)
    (uf uf2 rf : Bool) :
    convert_movie_to_mkv movie dn tn tmkv dest stream ec uf rf =
      convert_movie_to_mkv movie dn tn tmkv dest stream ec2 uf2 rf
    ∧ ((convert_movie_to_mkv movie dn tn tmkv dest stream ec uf rf).mkvPath.isSome
        ↔ lastMarkerHit stream = some markerLit) :=
  ⟨rfl, convert_success_iff movie dn tn tmkv dest stream ec uf rf⟩

/-- C10: the recorded conversion status is the text matched by the last
stream line the marker pattern (dots matching any character) finds a match
on, and the extraction is reported successful exactly when that text equals
the marker literal character for character. -/
theorem status_is_last_match (movie : String) (dn tn : Nat)
    (tmkv dest : String) (stream : List String) (ec : Int) (uf rf : Bool) :
    (∀ t, lastMarkerHit stream = some t →
      (convert_movie_to_mkv movie dn tn tmkv dest stream ec uf rf).status = t)
    ∧ ((convert_movie_to_mkv movie dn tn tmkv dest stream ec uf rf).mkvPath.isSome
        ↔ lastMarkerHit stream = some markerLit) := by
  constructor
  · intro t ht
    rw [convert_status_eq, conversionStatus_spec, ht]
    rfl
  · exact convert_success_iff movie dn tn tmkv dest stream ec uf rf

/-- Witness for C10 on a one-line stream holding exactly the marker. -/
theorem status_is_last_match_witness :
    (convert_movie_to_mkv "Movie" 0 4 "t.mkv" "/d" [markerLit] 0 false
        false).status = markerLit :=
  (status_is_last_match "Movie" 0 4 "t.mkv" "/d" [markerLit] 0 false false).1
    markerLit (by decide)

/-- Counterexample to C4 as stated: a stream ending in a whitespace-only line
yields the empty string as diagnostic, not the last non-empty line observed. -/
theorem blank_tail_diag_not_last_nonempty :
    (convert_movie_to_mkv "Movie" 0 4 "MOVIE_t04.mkv" "/dest"
        ["error happened", "   "] 0 false false).status = ""
    ∧ lastNonEmptyLine ["error happened", "   "] = some "error happened"
    ∧ ["error happened", "   "].all
        (fun l => (searchMarker (rstrip l)).isNone) = true := by decide

/-- C4 (amended): when the stream ends without the marker pattern ever
matching, the extraction fails with the last stream line, as stripped — which
may be empty — as its diagnostic status, no path is returned, deletion of the
expected output file (destination joined with the tool-internal mkv name) is
attempted, and the outcome is the same whether or not that deletion raises. -/
theorem no_marker_failure_cleanup (movie : String) (dn tn : Nat)
    (tmkv dest : String) (stream : List String) (ec : Int) (uf rf : Bool)
    (h : ∀ l ∈ stream, searchMarker (rstrip l) = none) :
    convert_movie_to_mkv movie dn tn tmkv dest stream ec uf rf =
      { status := lastStripped stream, mkvPath := none,
        unlinkAttempted := some (dest ++ "/" ++ tmkv),
        renameAttempted := none } := by
  have hstat : conversionStatus stream = lastStripped stream := by
    rw [conversionStatus_spec, lastMarkerHit_of_no_match h]
    rfl
  unfold convert_movie_to_mkv
  rw [if_pos (status_ne_marker_of_no_match h), hstat]

/-- Witness for the amended C4 on a marker-free stream. -/
theorem no_marker_failure_cleanup_witness :
    convert_movie_to_mkv "Movie" 0 4 "t.mkv" "/d" ["oops"] 0 true false =
      { status := "oops", mkvPath := none, unlinkAttempted := some "/d/t.mkv",
        renameAttempted := none } := by
  rw [no_marker_failure_cleanup "Movie" 0 4 "t.mkv" "/d" ["oops"] 0 true false
    (by decide)]
  decide

/-- C7: on a successful extraction exactly one rename is attempted, from the
tool-named file in the destination directory to the canonical
movie-name-based file; the extraction stays successful whether or not the
rename raises, and the returned path is the rename target when it succeeded
and the original tool-named path otherwise. -/
theorem success_single_rename (movie : String) (dn tn : Nat)
    (tmkv dest : String) (stream : List String) (ec : Int) (uf rf : Bool)
    (h : conversionStatus stream = markerLit) :
    convert_movie_to_mkv movie dn tn tmkv dest stream ec uf rf =
      { status := markerLit,
        mkvPath := some (if rf then dest ++ "/" ++ tmkv
          else dest ++ "/" ++ movie ++ " - d" ++ toString dn ++ "t"
            ++ toString tn ++ ".mkv"),
        unlinkAttempted := none,
        renameAttempted := some (dest ++ "/" ++ tmkv,
          dest ++ "/" ++ movie ++ " - d" ++ toString dn ++ "t"
            ++ toString tn ++ ".mkv") } := by
  unfold convert_movie_to_mkv
  rw [h, if_neg (by simp)]

/-- Witness for C7: a marker-only stream with a failing rename keeps the
tool-named path while still reporting success. -/
theorem success_single_rename_witness :
    convert_movie_to_mkv "Movie" 0 4 "t.mkv" "/d" [markerLit] 0 false true =
      { status := markerLit, mkvPath := some "/d/t.mkv",
        unlinkAttempted := none,
        renameAttempted := some ("/d/t.mkv", "/d/Movie - d0t4.mkv") } := by
  rw [success_single_rename "Movie" 0 4 "t.mkv" "/d" [markerLit] 0 false true
    (by decide)]
  decide

/-! Sortedness of the selection phase and its agreement with the spec walk. -/

theorem titleKeyLe_total (a b : Title) :
    titleKeyLe a b = true ∨ titleKeyLe b a = true := by
  simp only [titleKeyLe, Bool.or_eq_true, Bool.and_eq_true, decide_eq_true_eq,
    beq_iff_eq]
  rcases Nat.lt_trichotomy a.duration b.duration with h | h | h
  · exact Or.inl (Or.inl h)
  · rcases le_total a.size b.size with hs | hs
    · exact Or.inl (Or.inr ⟨h, hs⟩)
    · exact Or.inr (Or.inr ⟨h.symm, hs⟩)
  · exact Or.inr (Or.inl h)

theorem titleKeyLe_trans {a b c : Title} (h1 : titleKeyLe a b = true)
    (h2 : titleKeyLe b c = true) : titleKeyLe a c = true := by
  simp only [titleKeyLe, Bool.or_eq_true, Bool.and_eq_true, decide_eq_true_eq,
    beq_iff_eq] at h1 h2 ⊢
  rcases h1 with h1 | ⟨h1d, h1s⟩ <;> rcases h2 with h2 | ⟨h2d, h2s⟩
  · exact Or.inl (h1.trans h2)
  · exact Or.inl (h2d ▸ h1)
  · exact Or.inl (h1d ▸ h2)
  · exact Or.inr ⟨h1d.trans h2d, h1s.trans h2s⟩

theorem mem_insertTitle {x a : Title} : ∀ {l : List Title},
    x ∈ insertTitle a l → x = a ∨ x ∈ l := by
  intro l
  induction l with
  | nil =>
    intro h
    rw [insertTitle] at h
    exact Or.inl (List.mem_singleton.mp h)
  | cons y ys ih =>
    intro h
    rw [insertTitle] at h
    by_cases hc : titleKeyLe y a = true
    · rw [if_pos hc] at h
      rcases List.mem_cons.mp h with h | h
      · exact Or.inl h
      · exact Or.inr h
    · rw [if_neg hc] at h
      rcases List.mem_cons.mp h with h | h
      · exact Or.inr (h ▸ List.mem_cons_self y ys)
      · rcases ih h with h | h
        · exact Or.inl h
        · exact Or.inr (List.mem_cons_of_mem y h)

theorem insertTitle_pairwise {a : Title} : ∀ {l : List Title},
    l.Pairwise (fun x y => titleKeyLe y x = true) →
    (insertTitle a l).Pairwise (fun x y => titleKeyLe y x = true) := by
  intro l
  induction l with
  | nil =>
    intro _
    rw [insertTitle]
    exact List.pairwise_singleton _ a
  | cons y ys ih =>
    intro hp
    rcases List.pairwise_cons.mp hp with ⟨hy, hys⟩
    rw [insertTitle]
    by_cases hc : titleKeyLe y a = true
    · rw [if_pos hc]
      refine List.pairwise_cons.mpr ⟨?_, hp⟩
      intro z hz
      rcases List.mem_cons.mp hz with hz | hz
      · rw [hz]; exact hc
      · exact titleKeyLe_trans (hy z hz) hc
    · rw [if_neg hc]
      refine List.pairwise_cons.mpr ⟨?_, ih hys⟩
      intro z hz
      rcases mem_insertTitle hz with hz | hz
      · rw [hz]
        rcases titleKeyLe_total a y with h | h
        · exact h
        · exact absurd h hc
      · exact hy z hz

theorem sortTitles_pairwise (ts : List Title) :
    (sortTitles ts).Pairwise (fun x y => titleKeyLe y x = true) := by
  induction ts with
  | nil => exact List.Pairwise.nil
  | cons t ts ih => exact insertTitle_pairwise ih

theorem selectMovieTitles_cons {ts : List Title} {t0 : Title}
    {rest : List Title} (count : Int) (hs : sortTitles ts = t0 :: rest) :
    selectMovieTitles ts count =
      match walkSel count t0 t0 rest with
      | none => []
      | some sel => if count ≠ 0 then pySliceTo (t0 :: sel) count
                    else t0 :: sel := by
  rw [selectMovieTitles, hs]

theorem selectionPerClaim_cons {ts : List Title} {t0 : Title}
    {rest : List Title} (count : Int) (hs : sortTitles ts = t0 :: rest) :
    selectionPerClaim ts count =
      if count ≠ 0 then pySliceTo (t0 :: claimWalk t0 rest) count
      else t0 :: claimWalk t0 rest := by
  rw [selectionPerClaim, hs]

theorem walkSel_eq_claimWalk {count : Int} :
    ∀ (l : List Title) (lastSel prev : Title),
      (count = 0 ∨ hasAdjacentTie (prev :: l) = false) →
      walkSel count lastSel prev l = some (claimWalk lastSel l) := by
  intro l
  induction l with
  | nil => intro lastSel prev _; rfl
  | cons t rest ih =>
    intro lastSel prev hg
    have hrest : count = 0 ∨ hasAdjacentTie (t :: rest) = false := by
      rcases hg with hg | hg
      · exact Or.inl hg
      · rw [hasAdjacentTie, Bool.or_eq_false_iff] at hg
        exact Or.inr hg.2
    have hng : ¬(count ≠ 0 ∧ t.duration = prev.duration ∧ t.size = prev.size) := by
      rcases hg with hg | hg
      · intro h; exact h.1 hg
      · intro h
        rw [hasAdjacentTie, Bool.or_eq_false_iff] at hg
        have h1 := hg.1
        rw [h.2.1, h.2.2] at h1
        simp at h1
    rw [walkSel, claimWalk, if_neg hng]
    by_cases hsz : mkRat 3 5 * lastSel.size < t.size
    · rw [if_pos hsz, if_pos hsz, ih t t hrest]
      rfl
    · rw [if_neg hsz, if_neg hsz]
      exact ih lastSel t hrest

theorem claimWalk_sublist : ∀ (l : List Title) (lastSel : Title),
    List.Sublist (claimWalk lastSel l) l := by
  intro l
  induction l with
  | nil => intro _; exact List.Sublist.refl []
  | cons t rest ih =>
    intro lastSel
    rw [claimWalk]
    by_cases h : mkRat 3 5 * lastSel.size < t.size
    · rw [if_pos h]; exact (ih t).cons₂ t
    · rw [if_neg h]; exact (ih lastSel).cons t

theorem pySliceTo_sublist (xs : List Title) (n : Int) :
    List.Sublist (pySliceTo xs n) xs := by
  rw [pySliceTo]
  by_cases h : 0 ≤ n
  · rw [if_pos h]; exact List.take_sublist _ _
  · rw [if_neg h]; exact List.take_sublist _ _

/-- Counterexample to C8 as stated: on a duration-and-size tie with a
non-zero count the produced selection is empty, not the sort-seed-walk-
truncate list the claim describes. -/
theorem tie_breaks_claimed_selection :
    selectMovieTitles
        [⟨0, 5, 3600, 2, "t0.mkv"⟩, ⟨1, 5, 3600, 2, "t1.mkv"⟩] 1 = []
    ∧ selectionPerClaim
        [⟨0, 5, 3600, 2, "t0.mkv"⟩, ⟨1, 5, 3600, 2, "t1.mkv"⟩] 1 =
      [⟨0, 5, 3600, 2, "t0.mkv"⟩] := by
  constructor
  · decide
  · have hs : sortTitles
        [⟨0, 5, 3600, 2, "t0.mkv"⟩, ⟨1, 5, 3600, 2, "t1.mkv"⟩] =
        [⟨0, 5, 3600, 2, "t0.mkv"⟩, ⟨1, 5, 3600, 2, "t1.mkv"⟩] := by decide
    rw [selectionPerClaim_cons 1 hs]
    have hm : mkRat 3 5 * (⟨0, 5, 3600, 2, "t0.mkv"⟩ : Title).size <
        (⟨1, 5, 3600, 2, "t1.mkv"⟩ : Title).size := by
      show mkRat 3 5 * (2 : ℚ) < 2
      rw [Rat.mkRat_eq_divInt, Rat.divInt_eq_div]
      norm_num
    rw [claimWalk, if_pos hm, claimWalk]
    decide

set_option linter.unusedVariables false in
/-- C8 (amended): provided no two adjacent records of the descending-sorted
list tie on both duration and size when a non-zero count is requested (the
ambiguity guard would otherwise empty the selection), the selection built by
identify_movie_titles is exactly: sort descending by (duration, size), seed
with the single longest title, walk the remaining sorted records including a
record whenever its size exceeds 0.6 of the previous selected size, then
truncate to the requested count with 0 meaning no limit — and the returned
selection is in the same descending (duration, size) order. -/
theorem selection_walk_spec (ts : List Title) (count : Int) (hne : ts ≠ [])
    (hguard : count = 0 ∨ hasAdjacentTie (sortTitles ts) = false) :
    selectMovieTitles ts count = selectionPerClaim ts count
    ∧ (selectMovieTitles ts count).Pairwise
        (fun a b => titleKeyLe b a = true) := by
  have hpw := sortTitles_pairwise ts
  have key : selectMovieTitles ts count = selectionPerClaim ts count := by
    cases hs : sortTitles ts with
    | nil =>
      rw [selectMovieTitles, selectionPerClaim, hs]
    | cons t0 rest =>
      have hg : count = 0 ∨ hasAdjacentTie (t0 :: rest) = false := by
        rcases hguard with h | h
        · exact Or.inl h
        · rw [hs] at h; exact Or.inr h
      rw [selectMovieTitles_cons count hs,
        walkSel_eq_claimWalk rest t0 t0 hg, selectionPerClaim_cons count hs]
  refine ⟨key, ?_⟩
  rw [key]
  cases hs : sortTitles ts with
  | nil =>
    rw [selectionPerClaim, hs]
    exact List.Pairwise.nil
  | cons t0 rest =>
    rw [hs] at hpw
    rw [selectionPerClaim_cons count hs]
    have hsub : List.Sublist (t0 :: claimWalk t0 rest) (t0 :: rest) :=
      (claimWalk_sublist rest t0).cons₂ t0
    have hbase := hpw.sublist hsub
    by_cases hc : count ≠ 0
    · rw [if_pos hc]
      exact hbase.sublist (pySliceTo_sublist _ count)
    · rw [if_neg hc]
      exact hbase

/-- Witness for the amended C8 on two distinct, tie-free records. -/
theorem selection_walk_spec_witness :
    selectMovieTitles
        [⟨0, 2, 693, mkRat 16 10, "t0.mkv"⟩, ⟨4, 16, 8074, mkRat 318 10, "t4.mkv"⟩] 1 =
      selectionPerClaim
        [⟨0, 2, 693, mkRat 16 10, "t0.mkv"⟩, ⟨4, 16, 8074, mkRat 318 10, "t4.mkv"⟩] 1
    ∧ (selectMovieTitles
        [⟨0, 2, 693, mkRat 16 10, "t0.mkv"⟩, ⟨4, 16, 8074, mkRat 318 10, "t4.mkv"⟩] 1).Pairwise
        (fun a b => titleKeyLe b a = true) :=
  selection_walk_spec _ 1 (by decide) (Or.inr (by decide))

/-! Provenance of parsed records: every field of a returned record was
produced by a pattern match on some line of the stream. -/

theorem dropWhile_dropWhile (p : Char → Bool) :
    ∀ l : List Char, (l.dropWhile p).dropWhile p = l.dropWhile p := by
  intro l
  induction l with
  | nil => rfl
  | cons c cs ih =>
    rw [List.dropWhile_cons]
    by_cases h : p c = true
    · rw [if_pos h, ih]
    · rw [if_neg h, List.dropWhile_cons, if_neg h]

theorem rstrip_idem (s : String) : rstrip (rstrip s) = rstrip s := by
  show String.mk ((((s.data.reverse.dropWhile isPySpace).reverse).reverse.dropWhile
      isPySpace).reverse) = String.mk ((s.data.reverse.dropWhile isPySpace).reverse)
  rw [List.reverse_reverse, dropWhile_dropWhile]

/-- A line value the scanning loop can be holding: it strips to the strip of
some raw line of the stream. -/
def lineFrom (S : List String) (l : String) : Prop :=
  ∃ raw ∈ S, rstrip l = rstrip raw

theorem lineFrom_self {S : List String} {raw : String} (h : raw ∈ S) :
    lineFrom S raw := ⟨raw, h, rfl⟩

theorem lineFrom_rstrip {S : List String} {l : String} (h : lineFrom S l) :
    lineFrom S (rstrip l) := by
  rcases h with ⟨raw, hraw, heq⟩
  exact ⟨raw, hraw, by rw [rstrip_idem, heq]⟩

theorem scanFor_none {M : Type} (pat : String → Option M) (rest : List String) :
    scanFor pat none rest = ⟨none, none, rest⟩ := by
  rw [scanFor.eq_def]

theorem scanFor_some {M : Type} (pat : String → Option M) (l : String)
    (rest : List String) :
    scanFor pat (some l) rest =
      match pat (rstrip l) with
      | some m => ⟨some m, some (rstrip l), rest⟩
      | none =>
        match rest with
        | [] => ⟨none, none, []⟩
        | x :: xs => scanFor pat (some x) xs := by
  rw [scanFor.eq_def]

theorem scanFor_spec {M : Type} (pat : String → Option M) (S : List String) :
    ∀ (rest : List String) (cur : Option String),
      (∀ l, cur = some l → lineFrom S l) →
      (∀ l ∈ rest, lineFrom S l) →
      (∀ m, (scanFor pat cur rest).found = some m →
          ∃ raw ∈ S, pat (rstrip raw) = some m)
      ∧ (∀ l, (scanFor pat cur rest).cur = some l → lineFrom S l)
      ∧ (∀ l ∈ (scanFor pat cur rest).rest, lineFrom S l) := by
  intro rest
  induction rest with
  | nil =>
    intro cur hcur hrest
    cases cur with
    | none =>
      rw [scanFor_none]
      exact ⟨fun m hm => Option.noConfusion hm,
        fun l hl => Option.noConfusion hl,
        fun l hl => absurd hl (List.not_mem_nil l)⟩
    | some l =>
      rw [scanFor_some]
      cases hp : pat (rstrip l) with
      | some m0 =>
        refine ⟨?_, ?_, ?_⟩
        · intro m hm
          have hm0 : m0 = m := Option.some.inj hm
          rcases hcur l rfl with ⟨raw, hraw, heq⟩
          exact ⟨raw, hraw, by rw [← heq, hp, hm0]⟩
        · intro l2 hl2
          have : rstrip l = l2 := Option.some.inj hl2
          rw [← this]
          exact lineFrom_rstrip (hcur l rfl)
        · intro l2 hl2
          exact absurd hl2 (List.not_mem_nil l2)
      | none =>
        exact ⟨fun m hm => Option.noConfusion hm,
          fun l2 hl2 => Option.noConfusion hl2,
          fun l2 hl2 => absurd hl2 (List.not_mem_nil l2)⟩
  | cons x xs ih =>
    intro cur hcur hrest
    cases cur with
    | none =>
      rw [scanFor_none]
      exact ⟨fun m hm => Option.noConfusion hm,
        fun l hl => Option.noConfusion hl, hrest⟩
    | some l =>
      rw [scanFor_some]
      cases hp : pat (rstrip l) with
      | some m0 =>
        refine ⟨?_, ?_, ?_⟩
        · intro m hm
          have hm0 : m0 = m := Option.some.inj hm
          rcases hcur l rfl with ⟨raw, hraw, heq⟩
          exact ⟨raw, hraw, by rw [← heq, hp, hm0]⟩
        · intro l2 hl2
          have : rstrip l = l2 := Option.some.inj hl2
          rw [← this]
          exact lineFrom_rstrip (hcur l rfl)
        · exact hrest
      | none =>
        exact ih (some x)
          (fun l2 hl2 => by
            rw [← Option.some.inj hl2]
            exact hrest x (List.mem_cons_self x xs))
          (fun l2 hl2 => hrest l2 (List.mem_cons_of_mem x hl2))

theorem sizeConvert_ok_some {g : String} {q : ℚ}
    (h : sizeConvert g = .ok (some q)) :
    isSubstrOf "GB".data g.data = true
    ∧ pyFloat? (pySplitHead g) = some q := by
  unfold sizeConvert at h
  split at h
  · rename_i hs
    split at h
    · rename_i q2 hp
      refine ⟨hs, ?_⟩
      rw [hp, Option.some.inj (Except.ok.inj h)]
    · exact Except.noConfusion h
  · exact Option.noConfusion (Except.ok.inj h)

theorem chaptersScan_spec (S : List String) (cur : String) (rest : List String)
    (hcur : lineFrom S cur) (hrest : ∀ l ∈ rest, lineFrom S l) :
    (∀ m, (chaptersScan cur rest).found = some m →
        ∃ raw ∈ S, chaptersMatch (rstrip raw) = some m)
    ∧ (∀ l, (chaptersScan cur rest).cur = some l → lineFrom S l)
    ∧ (∀ l ∈ (chaptersScan cur rest).rest, lineFrom S l) :=
  scanFor_spec chaptersMatch S rest (some cur)
    (fun l hl => by rw [← Option.some.inj hl]; exact hcur) hrest

theorem durationScan_spec (S : List String) (cur : String) (rest : List String)
    (hcur : lineFrom S cur) (hrest : ∀ l ∈ rest, lineFrom S l) :
    (∀ m, (durationScan cur rest).found = some m →
        ∃ raw ∈ S, durationMatch (rstrip raw) = some m)
    ∧ (∀ l, (durationScan cur rest).cur = some l → lineFrom S l)
    ∧ (∀ l ∈ (durationScan cur rest).rest, lineFrom S l) :=
  scanFor_spec durationMatch S (chaptersScan cur rest).rest
    (chaptersScan cur rest).cur
    (chaptersScan_spec S cur rest hcur hrest).2.1
    (chaptersScan_spec S cur rest hcur hrest).2.2

theorem sizeScan_spec (S : List String) (cur : String) (rest : List String)
    (hcur : lineFrom S cur) (hrest : ∀ l ∈ rest, lineFrom S l) :
    (∀ m, (sizeScan cur rest).found = some m →
        ∃ raw ∈ S, sizeMatch (rstrip raw) = some m)
    ∧ (∀ l, (sizeScan cur rest).cur = some l → lineFrom S l)
    ∧ (∀ l ∈ (sizeScan cur rest).rest, lineFrom S l) :=
  scanFor_spec sizeMatch S (durationScan cur rest).rest
    (durationScan cur rest).cur
    (durationScan_spec S cur rest hcur hrest).2.1
    (durationScan_spec S cur rest hcur hrest).2.2

theorem mkvScan_spec (S : List String) (cur : String) (rest : List String)
    (hcur : lineFrom S cur) (hrest : ∀ l ∈ rest, lineFrom S l) :
    (∀ m, (mkvScan cur rest).found = some m →
        ∃ raw ∈ S, mkvMatch (rstrip raw) = some m)
    ∧ (∀ l, (mkvScan cur rest).cur = some l → lineFrom S l)
    ∧ (∀ l ∈ (mkvScan cur rest).rest, lineFrom S l) :=
  scanFor_spec mkvMatch S (sizeScan cur rest).rest
    (sizeScan cur rest).cur
    (sizeScan_spec S cur rest hcur hrest).2.1
    (sizeScan_spec S cur rest hcur hrest).2.2

theorem parseRound_some_spec {S : List String} {cur : String}
    {rest : List String} (hcur : lineFrom S cur)
    (hrest : ∀ l ∈ rest, lineFrom S l) {t : Title}
    {nxt : Option (String × List String)}
    (h : parseRound cur rest = .ok (some t, nxt)) : TitleProvenance S t := by
  unfold parseRound at h
  split at h
  · exact Option.noConfusion (Prod.mk.inj (Except.ok.inj h)).1
  · rename_i p1 i1 chap h1
    split at h
    · exact Option.noConfusion (Prod.mk.inj (Except.ok.inj h)).1
    · rename_i p2 i2 hh mi se h2
      split at h
      · exact Option.noConfusion (Prod.mk.inj (Except.ok.inj h)).1
      · rename_i p3 i3 g h3
        split at h
        · exact Except.noConfusion h
        · rename_i sz? hc
          split at h
          · exact Option.noConfusion (Prod.mk.inj (Except.ok.inj h)).1
          · rename_i p4 tno mkvName h4
            have hfst := (Prod.mk.inj (Except.ok.inj h)).1
            cases sz? with
            | none => exact Option.noConfusion hfst
            | some sz =>
              rw [Option.map_some'] at hfst
              have ht := Option.some.inj hfst
              rcases (chaptersScan_spec S cur rest hcur hrest).1 _ h1
                with ⟨lc, hlc, hmc⟩
              rcases (durationScan_spec S cur rest hcur hrest).1 _ h2
                with ⟨ld, hld, hmd⟩
              rcases (sizeScan_spec S cur rest hcur hrest).1 _ h3
                with ⟨ls, hls, hms⟩
              rcases (mkvScan_spec S cur rest hcur hrest).1 _ h4
                with ⟨lm, hlm, hmm⟩
              rcases sizeConvert_ok_some hc with ⟨hgb, hfl⟩
              rw [← ht]
              exact ⟨⟨lc, hlc, i1, hmc⟩,
                ⟨ld, hld, i2, hh, mi, se, hmd, rfl⟩,
                ⟨ls, hls, i3, g, hms, hgb, hfl⟩,
                ⟨lm, hlm, hmm⟩⟩

theorem parseRound_next_spec {S : List String} {cur : String}
    {rest : List String} (hcur : lineFrom S cur)
    (hrest : ∀ l ∈ rest, lineFrom S l) {t? : Option Title} {c2 : String}
    {r2 : List String} (h : parseRound cur rest = .ok (t?, some (c2, r2))) :
    lineFrom S c2 ∧ ∀ l ∈ r2, lineFrom S l := by
  unfold parseRound at h
  split at h
  · exact Option.noConfusion (Prod.mk.inj (Except.ok.inj h)).2
  · split at h
    · exact Option.noConfusion (Prod.mk.inj (Except.ok.inj h)).2
    · split at h
      · exact Option.noConfusion (Prod.mk.inj (Except.ok.inj h)).2
      · split at h
        · exact Except.noConfusion h
        · split at h
          · exact Option.noConfusion (Prod.mk.inj (Except.ok.inj h)).2
          · have hsnd := (Prod.mk.inj (Except.ok.inj h)).2
            have hmems := (mkvScan_spec S cur rest hcur hrest).2.2
            cases hr4 : (mkvScan cur rest).rest with
            | nil => rw [hr4] at hsnd; exact Option.noConfusion hsnd
            | cons x xs =>
              rw [hr4] at hsnd
              have hpair := Prod.mk.inj (Option.some.inj hsnd)
              rw [hr4] at hmems
              constructor
              · rw [← hpair.1]
                exact hmems x (List.mem_cons_self x xs)
              · intro l hl
                rw [← hpair.2] at hl
                exact hmems l (List.mem_cons_of_mem x hl)


theorem scanFor_rest_le {M : Type} (pat : String → Option M) :
    ∀ (rest : List String) (cur : Option String),
      (scanFor pat cur rest).rest.length ≤ rest.length := by
  intro rest
  induction rest with
  | nil =>
    intro cur
    cases cur with
    | none => rw [scanFor_none]
    | some l =>
      rw [scanFor_some]
      cases pat (rstrip l) <;> exact Nat.le_refl _
  | cons x xs ih =>
    intro cur
    cases cur with
    | none => rw [scanFor_none]
    | some l =>
      rw [scanFor_some]
      cases pat (rstrip l) with
      | some m => exact Nat.le_refl _
      | none => exact Nat.le_trans (ih (some x)) (Nat.le_succ _)

theorem parseRound_next_lt {cur : String} {rest : List String}
    {t? : Option Title} {c2 : String} {r2 : List String}
    (h : parseRound cur rest = .ok (t?, some (c2, r2))) :
    r2.length < rest.length := by
  have hm : (mkvScan cur rest).rest.length ≤ rest.length := by
    calc (mkvScan cur rest).rest.length
        ≤ (sizeScan cur rest).rest.length := scanFor_rest_le _ _ _
      _ ≤ (durationScan cur rest).rest.length := scanFor_rest_le _ _ _
      _ ≤ (chaptersScan cur rest).rest.length := scanFor_rest_le _ _ _
      _ ≤ rest.length := scanFor_rest_le _ _ _
  unfold parseRound at h
  split at h
  · exact Option.noConfusion (Prod.mk.inj (Except.ok.inj h)).2
  · split at h
    · exact Option.noConfusion (Prod.mk.inj (Except.ok.inj h)).2
    · split at h
      · exact Option.noConfusion (Prod.mk.inj (Except.ok.inj h)).2
      · split at h
        · exact Except.noConfusion h
        · split at h
          · exact Option.noConfusion (Prod.mk.inj (Except.ok.inj h)).2
          · have hsnd := (Prod.mk.inj (Except.ok.inj h)).2
            cases hr4 : (mkvScan cur rest).rest with
            | nil => rw [hr4] at hsnd; exact Option.noConfusion hsnd
            | cons x xs =>
              rw [hr4] at hsnd
              have hpair := Prod.mk.inj (Option.some.inj hsnd)
              rw [hr4] at hm
              rw [← hpair.2]
              simp only [List.length_cons] at hm
              omega

/-- The fuel `parseTitles` hands `parseTitlesFuel` is irrelevant as long as
it exceeds the number of unread lines: every continuing round strictly
shrinks that number, so the loop always terminates of its own accord and the
fuel never cuts it short. -/
theorem parseTitlesFuel_stable :
    ∀ (n f1 f2 : Nat) (cur : String) (rest : List String),
      rest.length ≤ n → rest.length < f1 → rest.length < f2 →
      parseTitlesFuel f1 cur rest = parseTitlesFuel f2 cur rest := by
  intro n
  induction n with
  | zero =>
    intro f1 f2 cur rest hn h1 h2
    cases f1 with
    | zero => omega
    | succ f1 =>
      cases f2 with
      | zero => omega
      | succ f2 =>
        cases hr : parseRound cur rest with
        | error e => rw [parseTitlesFuel, parseTitlesFuel, hr]
        | ok p =>
          obtain ⟨t?, nxt⟩ := p
          cases nxt with
          | none => rw [parseTitlesFuel, parseTitlesFuel, hr]
          | some p2 =>
            obtain ⟨c2, r2⟩ := p2
            have := parseRound_next_lt hr
            omega
  | succ n ih =>
    intro f1 f2 cur rest hn h1 h2
    cases f1 with
    | zero => omega
    | succ f1 =>
      cases f2 with
      | zero => omega
      | succ f2 =>
        cases hr : parseRound cur rest with
        | error e => rw [parseTitlesFuel, parseTitlesFuel, hr]
        | ok p =>
          obtain ⟨t?, nxt⟩ := p
          cases nxt with
          | none => rw [parseTitlesFuel, parseTitlesFuel, hr]
          | some p2 =>
            obtain ⟨c2, r2⟩ := p2
            have hlt := parseRound_next_lt hr
            rw [parseTitlesFuel, parseTitlesFuel, hr]
            simp only [ih f1 f2 c2 r2 (by omega) (by omega) (by omega)]

theorem digit_toNat_le {c : Char} (h : c.isDigit = true) : c.toNat - 48 ≤ 9 := by
  simp only [Char.isDigit, Bool.and_eq_true, decide_eq_true_eq] at h
  have h2 : c.val.toNat ≤ 57 := UInt32.le_def.mp h.2
  show c.val.toNat - 48 ≤ 9
  omega

theorem digitsVal_one_le {c : Char} (h : c.isDigit = true) :
    digitsVal [c] ≤ 9 := by
  show 10 * 0 + (c.toNat - 48) ≤ 9
  have := digit_toNat_le h
  omega

theorem digitsVal_two_le {c1 c2 : Char} (h1 : c1.isDigit = true)
    (h2 : c2.isDigit = true) : digitsVal [c1, c2] ≤ 99 := by
  show 10 * (10 * 0 + (c1.toNat - 48)) + (c2.toNat - 48) ≤ 99
  have := digit_toNat_le h1
  have := digit_toNat_le h2
  omega

/-- The duration pattern only ever yields a single-digit hour and two-digit
minute and second fields. -/
theorem durationMatch_bounds {l : String} {i h mi se : Nat}
    (hm : durationMatch l = some (i, h, mi, se)) :
    h ≤ 9 ∧ mi ≤ 99 ∧ se ≤ 99 := by
  unfold durationMatch at hm
  split at hm
  · exact Option.noConfusion hm
  · split at hm
    · rename_i h0 m1 m2 s1 s2 rest0
      split at hm
      · rename_i hdig
        simp only [Bool.and_eq_true] at hdig
        have hinj := Option.some.inj hm
        have hq2 := (Prod.mk.inj hinj).2
        have hq3 := (Prod.mk.inj hq2).2
        refine ⟨?_, ?_, ?_⟩
        · rw [← (Prod.mk.inj hq2).1]
          exact digitsVal_one_le hdig.1.1.1.1
        · rw [← (Prod.mk.inj hq3).1]
          exact digitsVal_two_le hdig.1.1.1.2 hdig.1.1.2
        · rw [← (Prod.mk.inj hq3).2]
          exact digitsVal_two_le hdig.1.2 hdig.2
      · exact Option.noConfusion hm
    · exact Option.noConfusion hm

theorem parseTitlesFuel_spec (S : List String) :
    ∀ (fuel : Nat) (cur : String) (rest : List String),
      lineFrom S cur → (∀ l ∈ rest, lineFrom S l) →
      ∀ ts, parseTitlesFuel fuel cur rest = .ok ts →
        ∀ t ∈ ts, TitleProvenance S t := by
  intro fuel
  induction fuel with
  | zero =>
    intro cur rest _ _ ts h t ht
    rw [← Except.ok.inj h] at ht
    exact absurd ht (List.not_mem_nil t)
  | succ fuel ih =>
    intro cur rest hcur hrest ts h t ht
    rw [parseTitlesFuel] at h
    split at h
    · exact Except.noConfusion h
    · rename_i t? hr
      rw [← Except.ok.inj h] at ht
      cases t? with
      | none => exact absurd ht (List.not_mem_nil t)
      | some t0 =>
        rw [List.mem_singleton.mp ht]
        exact parseRound_some_spec hcur hrest hr
    · rename_i t? c2 r2 hr
      have hlines := parseRound_next_spec hcur hrest hr
      split at h
      · exact Except.noConfusion h
      · rename_i ts2 hrec
        rw [← Except.ok.inj h] at ht
        rcases List.mem_append.mp ht with ht | ht
        · cases t? with
          | none => exact absurd ht (List.not_mem_nil t)
          | some t0 =>
            rw [List.mem_singleton.mp ht]
            exact parseRound_some_spec hcur hrest hr
        · exact ih c2 r2 hlines.1 hlines.2 ts2 hrec t ht

theorem parseTitles_spec {stream : List String} {ts : List Title}
    (h : parseTitles stream = .ok ts) : ∀ t ∈ ts, TitleProvenance stream t := by
  cases stream with
  | nil =>
    intro t ht
    rw [parseTitles] at h
    rw [← Except.ok.inj h] at ht
    exact absurd ht (List.not_mem_nil t)
  | cons c r =>
    exact parseTitlesFuel_spec (c :: r) (r.length + 1) c r
      (lineFrom_self (List.mem_cons_self c r))
      (fun l hl => lineFrom_self (List.mem_cons_of_mem c hl)) ts h

theorem mem_sortTitles {t : Title} : ∀ {ts : List Title},
    t ∈ sortTitles ts → t ∈ ts := by
  intro ts
  induction ts with
  | nil => intro h; exact absurd h (List.not_mem_nil t)
  | cons a as ih =>
    intro h
    rcases mem_insertTitle h with h | h
    · exact h ▸ List.mem_cons_self a as
    · exact List.mem_cons_of_mem a (ih h)

theorem walkSel_mem {count : Int} :
    ∀ (l : List Title) (lastSel prev : Title) (sel : List Title),
      walkSel count lastSel prev l = some sel → ∀ t ∈ sel, t ∈ l := by
  intro l
  induction l with
  | nil =>
    intro lastSel prev sel h t ht
    rw [← Option.some.inj h] at ht
    exact absurd ht (List.not_mem_nil t)
  | cons x rest ih =>
    intro lastSel prev sel h t ht
    rw [walkSel] at h
    split at h
    · exact Option.noConfusion h
    · split at h
      · cases hw : walkSel count x x rest with
        | none => rw [hw] at h; exact Option.noConfusion h
        | some sel2 =>
          rw [hw] at h
          rw [← Option.some.inj h] at ht
          rcases List.mem_cons.mp ht with ht | ht
          · exact ht ▸ List.mem_cons_self x rest
          · exact List.mem_cons_of_mem x (ih x x sel2 hw t ht)
      · exact List.mem_cons_of_mem x (ih lastSel x sel h t ht)

theorem mem_selectMovieTitles {t : Title} {ts : List Title} {count : Int}
    (h : t ∈ selectMovieTitles ts count) : t ∈ ts := by
  rw [selectMovieTitles] at h
  split at h
  · exact absurd h (List.not_mem_nil t)
  · rename_i t0 rest hs
    split at h
    · exact absurd h (List.not_mem_nil t)
    · rename_i sel hw
      have hmem : t ∈ t0 :: sel := by
        by_cases hc : count ≠ 0
        · rw [if_pos hc] at h
          exact (pySliceTo_sublist (t0 :: sel) count).subset h
        · rw [if_neg hc] at h
          exact h
      have hsorted : t ∈ sortTitles ts := by
        rw [hs]
        rcases List.mem_cons.mp hmem with hm | hm
        · exact hm ▸ List.mem_cons_self t0 rest
        · exact List.mem_cons_of_mem t0 (walkSel_mem rest t0 t0 sel hw t hm)
      exact mem_sortTitles hsorted

theorem identify_ok_provenance {binary : Option String} {stream : List String}
    {count : Int} {ts : List Title}
    (h : (identify_movie_titles binary stream count).result = .ok ts) :
    ∀ t ∈ ts, TitleProvenance stream t := by
  unfold identify_movie_titles at h
  by_cases hc : count < 0
  · rw [if_pos hc] at h
    intro t ht
    rw [← Except.ok.inj h] at ht
    exact absurd ht (List.not_mem_nil t)
  · rw [if_neg hc] at h
    cases binary with
    | none => exact absurd h (by simp)
    | some b =>
      cases hp : parseTitles stream with
      | error e => rw [hp] at h; exact absurd h (by simp [Except.map])
      | ok ps =>
        rw [hp] at h
        intro t ht
        rw [← Except.ok.inj h] at ht
        exact parseTitles_spec hp t (mem_selectMovieTitles ht)

/-- C5 (amended): every title record identify_movie_titles returns has each
of its four informational fields produced by a match of that field's own
pattern on some line of the stream, its index and mkv name taken from the
mkv match, and its size from a size match whose unit text contained GB — a
non-gigabyte size is recorded as absent and the record discarded — but the
four matches need not carry one and the same title index. -/
theorem returned_records_field_provenance (binary : Option String)
    (stream : List String) (count : Int) (ts : List Title)
    (h : (identify_movie_titles binary stream count).result = .ok ts) :
    ∀ t ∈ ts, TitleProvenance stream t :=
  identify_ok_provenance h

/-- Witness for the amended C5 on a concrete four-line stream. -/
theorem returned_records_field_provenance_witness :
    TitleProvenance
      ["TINFO:0,8,0,\"5\"", "TINFO:0,9,0,\"1:00:00\"",
       "TINFO:1,10,0,\"2.0 GB\"", "TINFO:1,27,0,\"t1.mkv\""]
      ⟨1, 5, 3600, 2, "t1.mkv"⟩ :=
  returned_records_field_provenance (some "makemkvcon")
    ["TINFO:0,8,0,\"5\"", "TINFO:0,9,0,\"1:00:00\"",
     "TINFO:1,10,0,\"2.0 GB\"", "TINFO:1,27,0,\"t1.mkv\""] 10
    [⟨1, 5, 3600, 2, "t1.mkv"⟩] (by decide)
    ⟨1, 5, 3600, 2, "t1.mkv"⟩ (by decide)

/-- Counterexample to C5 as stated: a stream whose chapters and duration
lines belong to title 0 while the size and mkv lines belong to title 1
produces a record with index 1 whose chapters and duration were never
observed for index 1 — no chapters line for title 1 exists at all. -/
theorem cross_index_record_returned :
    identify_movie_titles (some "makemkvcon")
      ["TINFO:0,8,0,\"5\"", "TINFO:0,9,0,\"1:00:00\"",
       "TINFO:1,10,0,\"2.0 GB\"", "TINFO:1,27,0,\"t1.mkv\""] 10 =
      ⟨true, .ok [⟨1, 5, 3600, 2, "t1.mkv"⟩]⟩
    ∧ ["TINFO:0,8,0,\"5\"", "TINFO:0,9,0,\"1:00:00\"",
       "TINFO:1,10,0,\"2.0 GB\"", "TINFO:1,27,0,\"t1.mkv\""].all
        (fun l => match chaptersMatch (rstrip l) with
                  | some (i, _) => decide (i ≠ 1)
                  | none => true) = true := by decide

/-- C9 (amended): every record identify_movie_titles returns has a duration
of at most 9 hours, 99 minutes and 99 seconds (38439 seconds, i.e. strictly
below 10 hours 40 minutes and 40 seconds): the hour group of the duration
pattern accepts exactly one digit, but the minute and second groups each
accept up to 99. -/
theorem returned_durations_bounded (binary : Option String)
    (stream : List String) (count : Int) (ts : List Title)
    (h : (identify_movie_titles binary stream count).result = .ok ts) :
    ∀ t ∈ ts, t.duration < 38440 := by
  intro t ht
  rcases identify_ok_provenance h t ht with
    ⟨-, ⟨l, hl, i, hh, mi, se, hmatch, hdur⟩, -, -⟩
  obtain ⟨b1, b2, b3⟩ := durationMatch_bounds hmatch
  rw [hdur]
  omega

/-- Witness for the amended C9 on a concrete stream. -/
theorem returned_durations_bounded_witness :
    (⟨0, 5, 38439, 2, "t0.mkv"⟩ : Title).duration < 38440 :=
  returned_durations_bounded (some "makemkvcon")
    ["TINFO:0,8,0,\"5\"", "TINFO:0,9,0,\"9:99:99\"",
     "TINFO:0,10,0,\"2.0 GB\"", "TINFO:0,27,0,\"t0.mkv\""] 10
    [⟨0, 5, 38439, 2, "t0.mkv"⟩] (by decide)
    ⟨0, 5, 38439, 2, "t0.mkv"⟩ (by decide)

/-- Counterexample to C9 as stated: a duration line reading 9:99:99 matches
the pattern — the minute and second groups are not bounded by 59 — and yields
a returned record of 38439 seconds, which is not strictly below 10 hours
(36000 seconds). -/
theorem over_ten_hour_record_returned :
    identify_movie_titles (some "makemkvcon")
      ["TINFO:0,8,0,\"5\"", "TINFO:0,9,0,\"9:99:99\"",
       "TINFO:0,10,0,\"2.0 GB\"", "TINFO:0,27,0,\"t0.mkv\""] 10 =
      ⟨true, .ok [⟨0, 5, 38439, 2, "t0.mkv"⟩]⟩
    ∧ 36000 ≤ 38439 := by decide

end BlurayToMkv
